import Mathlib

/-!
Verification development for the Pagoda chat client's core view-model
operations, shallowly embedded from the Python sources:

* message grouping and reconciliation
  (`pagoda/applications/teahaz/chatroom.py`: `MessageBox.add_message`,
  `ChatroomWindow.add_message`, `ChatroomWindow._switch_channel`,
  `ChatroomWindow._send_message`);
* window ownership (`pagoda/applications/application.py`:
  `PagodaApplication.close`, `PagodaApplication.stop`) and the Teahaz
  shutdown override (`pagoda/applications/teahaz/__init__.py`:
  `TeahazApplication.stop`);
* error routing and throttling (`TeahazApplication._error`);
* CLI startup (`pagoda/__main__.py`: `parse_arguments`, `main`).
-/

namespace Pagoda

/-- A chat message, carrying the fields of `teahaz.Message` that the Pagoda
code reads: unique id `uid`, author `username`, send time in seconds
`send_time`, and the delivery flag `is_delivered`. -/
structure Message where
  uid : String
  username : String
  send_time : Int
  is_delivered : Bool
deriving DecidableEq, Repr

/-- Ordering of messages by `send_time`, the key of the Python sort in
`MessageBox.add_message`. -/
def timeLe (a b : Message) : Prop := a.send_time ≤ b.send_time

instance : ∀ a b, Decidable (timeLe a b) := fun a b =>
  inferInstanceAs (Decidable (a.send_time ≤ b.send_time))

/-- Placement of a newly arrived element by a stable ascending sort:
`m` goes after every element whose `send_time` is ≤ its own. -/
def insertSorted (m : Message) : List Message → List Message
  | [] => [m]
  | x :: xs =>
    if x.send_time ≤ m.send_time then x :: insertSorted m xs
    else m :: x :: xs

/-- Stable ascending sort by `send_time`: the result of Python's
`self._messages.sort(key=lambda msg: msg.send_time)` (Python's sort is
stable, so any stable insertion sort computes the same list). -/
def sortByTime (l : List Message) : List Message :=
  l.foldl (fun acc m => insertSorted m acc) []

/-- Removal of the first occurrence of an element, as Python's
`list.remove`. The Python method raises when the element is absent; the
modelled call sites only reach it with the element present. -/
def removeFirst [DecidableEq α] : List α → α → List α
  | [], _ => []
  | x :: xs, a => if x = a then xs else x :: removeFirst xs a

/-- `MessageBox.add_message`: append the message to the box, then sort the
box's message list by `send_time` (chatroom.py lines 110-111). -/
def MessageBox.add_message (box : List Message) (m : Message) : List Message :=
  sortByTime (box ++ [m])

/-- `MessageBox.remove_msg`: remove the message from the box's list
(chatroom.py line 99). -/
def MessageBox.remove_msg (box : List Message) (m : Message) : List Message :=
  removeFirst box m

/-- The `_sent_messages` dict of `ChatroomWindow`: uid to (the pending
message object, the index in `conv_box` of the `MessageBox` it was recorded
with). Boxes are only ever appended to `conv_box`, so an index is a stable
stand-in for the Python object reference. -/
abbrev SentTable := List (String × Message × Nat)

/-- Dict lookup (`message.uid in self._sent_messages` plus the read). -/
def lookupSent : SentTable → String → Option (Message × Nat)
  | [], _ => none
  | (k, v) :: rest, uid => if k = uid then some v else lookupSent rest uid

/-- Dict deletion (`del self._sent_messages[message.uid]`). -/
def eraseSent : SentTable → String → SentTable
  | [], _ => []
  | (k, v) :: rest, uid => if k = uid then rest else (k, v) :: eraseSent rest uid

/-- Dict assignment (`self._sent_messages[uid] = value`): replace the value
if the key exists, otherwise append the binding. -/
def insertSent : SentTable → String → Message × Nat → SentTable
  | [], uid, v => [(uid, v)]
  | (k, w) :: rest, uid, v =>
    if k = uid then (uid, v) :: rest else (k, w) :: insertSent rest uid v

/-- Replacement of the element at one index, leaving the rest of the list
unchanged (mutation of one `MessageBox` object held inside `conv_box`). -/
def modifyIdx : List α → Nat → (α → α) → List α
  | [], _, _ => []
  | x :: xs, 0, f => f x :: xs
  | x :: xs, n + 1, f => x :: modifyIdx xs n f

/-- The mutable state of a `ChatroomWindow` relevant to message handling:
`conv_box` is the ordered list of message boxes (each a `MessageBox`
message list; the purely visual spacer widgets are not modelled),
`sent_messages` the pending-message correlation dict, `previous_box` the
index of the box `self._previous_box` refers to, and `previous_message`
the last message handed to `add_message`. -/
structure ChatroomWindow where
  conv_box : List (List Message)
  sent_messages : SentTable
  previous_box : Option Nat
  previous_message : Option Message
deriving DecidableEq, Repr

/-- The state set up by `ChatroomWindow._switch_channel` before it replays
a channel's messages: empty boxes, empty dict, no previous box/message. -/
def ChatroomWindow.initial : ChatroomWindow := ⟨[], [], none, none⟩

/-- `ChatroomWindow.add_message` (chatroom.py lines 308-348), translated
branch by branch:

1. if `message.uid` is a key of `_sent_messages`, the recorded pending
   message is removed from the recorded box and the dict entry deleted;
2. `prev = self._previous_message`; if `prev is not None` and the new
   message has the same author and `send_time` delta below 600, the
   message is added to `self._previous_box`. The source's `else` branch
   (create a new `MessageBox` and append it to `conv_box`) is attached to
   `if prev is not None`, so it runs only when there is no previous
   message; when `prev` exists but the grouping test fails, no branch
   adds the message anywhere;
3. `self._previous_message = message`;
4. if the message is not delivered, it is recorded in `_sent_messages`
   together with `self._previous_box`. -/
def ChatroomWindow.add_message (st : ChatroomWindow) (message : Message) :
    ChatroomWindow :=
  let st1 :=
    match lookupSent st.sent_messages message.uid with
    | some (sent, bi) =>
      { st with
        conv_box := modifyIdx st.conv_box bi (fun b => MessageBox.remove_msg b sent)
        sent_messages := eraseSent st.sent_messages message.uid }
    | none => st
  let st2 :=
    match st1.previous_message with
    | some prev =>
      if message.username = prev.username ∧
          message.send_time - prev.send_time < 600 then
        match st1.previous_box with
        | some bi =>
          { st1 with
            conv_box :=
              modifyIdx st1.conv_box bi (fun b => MessageBox.add_message b message) }
        | none => st1
      else
        st1
    | none =>
      { st1 with
        conv_box := st1.conv_box ++ [[message]]
        previous_box := some st1.conv_box.length }
  let st3 := { st2 with previous_message := some message }
  if message.is_delivered then st3
  else
    match st3.previous_box with
    | some bi =>
      { st3 with
        sent_messages := insertSent st3.sent_messages message.uid (message, bi) }
    | none => st3

/-- The replay loop of `ChatroomWindow._switch_channel` (and of
`TeahazApplication.start`): feed a list of messages to `add_message` in
order. -/
def ChatroomWindow.add_all (st : ChatroomWindow) (msgs : List Message) :
    ChatroomWindow :=
  msgs.foldl ChatroomWindow.add_message st

/-- `ChatroomWindow._send_message` (chatroom.py lines 299-306) as a
function of the input field's value: the first component is the text
dispatched to `threaded(self.chatroom.send)` (none when nothing is
dispatched), the second the field's value afterwards. -/
def ChatroomWindow.send_message (fieldValue : String) : Option String × String :=
  if fieldValue = "" then (none, fieldValue)
  else (some fieldValue, "")

/-- State of a `PagodaApplication` as far as window ownership is concerned:
the `active_windows` list (windows identified by numeric ids) and a log of
the display-layer teardowns (`window.close()` calls) issued so far, in
order. -/
structure AppState where
  active_windows : List Nat
  torn_down : List Nat
deriving DecidableEq, Repr

/-- The effect of `self.active_windows.remove(window)`
(application.py line 80). -/
def AppState.unregister (st : AppState) (w : Nat) : AppState :=
  { st with active_windows := removeFirst st.active_windows w }

/-- The effect of `window.close()` (application.py line 81): the display
layer tears the window down; `active_windows` is not touched. -/
def AppState.teardown (st : AppState) (w : Nat) : AppState :=
  { st with torn_down := st.torn_down ++ [w] }

/-- The message of the `ValueError` raised by `PagodaApplication.close`. -/
def notOwnedMsg : String := "Window is not in active_windows."

/-- `PagodaApplication.close` (application.py lines 70-81): raise when the
window is not owned, leaving the state untouched; otherwise remove it from
`active_windows` first and only then ask the display layer to close it.
The returned `Option String` is the raised error, if any. -/
def PagodaApplication.close (st : AppState) (w : Nat) : AppState × Option String :=
  if w ∈ st.active_windows then
    ((st.unregister w).teardown w, none)
  else
    (st, some notOwnedMsg)

/-- `PagodaApplication.stop` (application.py lines 83-92): for each window
of `active_windows`, call `window.close()` only when the window is still
registered with the window manager. `active_windows` itself is not
modified (the loop calls `window.close()`, not `self.close(window)`). -/
def PagodaApplication.stop (st : AppState) (manager : List Nat) : AppState :=
  { st with
    torn_down := st.torn_down ++ st.active_windows.filter (fun w => w ∈ manager) }

/-- Primitive shutdown actions of `TeahazApplication.stop`. -/
inductive TeahazOp where
  | persistSession
  | cupStop
  | teardownWin (w : Nat)
deriving DecidableEq, Repr

/-- `TeahazApplication.stop` (teahaz/__init__.py lines 206-216) as the
ordered list of actions it performs: dump the session to disk when restore
is enabled and the OS is not Windows, stop the Teacup backend, then run
the base class close-all (which tears down the active windows still held
by the manager, in order). -/
def TeahazApplication.stop (aw manager : List Nat) (do_restore isWindowsOS : Bool) :
    List TeahazOp :=
  (if do_restore ∧ ¬ isWindowsOS then [TeahazOp.persistSession] else [])
    ++ [TeahazOp.cupStop]
    ++ (aw.filter (fun w => w ∈ manager)).map TeahazOp.teardownWin

/-- An error event delivered to `TeahazApplication._error`: either an HTTP
`Response` the server rejected (carrying its error text) or an `Exception`
(carrying its type name). -/
inductive ErrorEvent where
  | response (text : String)
  | exception (typeName : String)
deriving DecidableEq, Repr

/-- Python's `type(x).__name__` for the `_previous_exception` slot, whose
initial value is `None`. -/
def prevTypeName : Option String → String
  | some n => n
  | none => "NoneType"

/-- State of the Teahaz error handler: the `_previous_exception` slot
(by type name) and, in order, the errors routed to the host's shared
error surface (`self.manager.error`). -/
structure ErrState where
  previousException : Option String
  displayed : List ErrorEvent
deriving DecidableEq, Repr

/-- Initial handler state (`self._previous_exception = None`). -/
def ErrState.initial : ErrState := ⟨none, []⟩

/-- One call of `TeahazApplication._error` (teahaz/__init__.py lines
89-131): a `Response` is always routed to `manager.error`; an exception is
dropped when its type name equals `type(self._previous_exception).__name__`
(an early `return`, so the slot is not updated), otherwise the slot is set
to it and it is routed. -/
def TeahazApplication.handle_error (st : ErrState) (e : ErrorEvent) : ErrState :=
  match e with
  | ErrorEvent.response _ => { st with displayed := st.displayed ++ [e] }
  | ErrorEvent.exception n =>
    if prevTypeName st.previousException = n then st
    else { previousException := some n, displayed := st.displayed ++ [e] }

/-- A sequence of `_error` deliveries. -/
def TeahazApplication.handle_all (st : ErrState) (es : List ErrorEvent) : ErrState :=
  es.foldl TeahazApplication.handle_error st

/-- The loop of `parse_arguments` (__main__.py lines 12-17): starting from
3, add one for every argument before the first `-a` / `--app`. -/
def endingIndexFrom : List String → Nat → Nat
  | [], acc => acc
  | a :: rest, acc =>
    if a = "-a" ∨ a = "--app" then acc else endingIndexFrom rest (acc + 1)

/-- `parse_arguments` (__main__.py lines 9-39): split `argv` into the slice
handed to the host's argument parser (`argv[1:ending_index]`) and the
remaining, module-specific arguments (`argv[ending_index:]`), which are
forwarded verbatim. -/
def parse_arguments (argv : List String) : List String × List String :=
  let e := endingIndexFrom (argv.drop 1) 3
  ((argv.drop 1).take (e - 1), argv.drop e)

/-- Number of positional arguments `main` passes to the `Pagoda`
constructor: `Pagoda(remaining, args.app, args.launch)`
(__main__.py line 47). -/
def mainPagodaCallArity : Nat := 3

/-- Largest number of positional arguments `Pagoda.__init__` accepts after
`self`: `def __init__(self, remaining_args, app_id=None)`
(runtime.py line 71). -/
def pagodaInitMaxArity : Nat := 2

/-- Smallest number of positional arguments `Pagoda.__init__` accepts
after `self` (only `app_id` has a default). -/
def pagodaInitMinArity : Nat := 1

/-- Python's arity check when a call supplies only positional arguments. -/
def pythonCallAccepts (minArity maxArity nArgs : Nat) : Bool :=
  decide (minArity ≤ nArgs ∧ nArgs ≤ maxArity)

/-- `main` (__main__.py lines 42-48): parse `argv`, then evaluate
`Pagoda(remaining, args.app, args.launch)`. When the constructor call is
accepted the run loop would be entered with the forwarded module-specific
arguments; when the arity check fails, Python raises `TypeError` before
the run loop. -/
def main (argv : List String) : Except String (List String) :=
  let parsed := parse_arguments argv
  if pythonCallAccepts pagodaInitMinArity pagodaInitMaxArity mainPagodaCallArity then
    Except.ok parsed.2
  else
    Except.error "TypeError"

/-- Number of occurrences of a message in a box (visual entries equal to
`m`). -/
def countMsg (m : Message) : List Message → Nat
  | [] => 0
  | x :: xs => (if x = m then 1 else 0) + countMsg m xs

/-- Discriminator for `Response`-borne errors. -/
def ErrorEvent.isResponse : ErrorEvent → Bool
  | ErrorEvent.response _ => true
  | ErrorEvent.exception _ => false

/-- Reference filter for the amended claim C8, written from its wording:
every response error is routed; an exception is routed exactly when its
type name differs from the type name of the nearest preceding exception
event (initially the type name of Python's `None`). -/
def throttleSpec : Option String → List ErrorEvent → List ErrorEvent
  | _, [] => []
  | prev, ErrorEvent.response t :: rest =>
    ErrorEvent.response t :: throttleSpec prev rest
  | prev, ErrorEvent.exception n :: rest =>
    if prevTypeName prev = n then throttleSpec (some n) rest
    else ErrorEvent.exception n :: throttleSpec (some n) rest

/-! ### Concrete messages used by the scenario evaluations -/

/-- A delivered message from alice sent at time 0. -/
def aliceMsg : Message := ⟨"m-alice", "alice", 0, true⟩

/-- A delivered message from bob sent at time 10. -/
def bobMsg : Message := ⟨"m-bob", "bob", 10, true⟩

/-- An optimistic pending send from alice with placeholder uid `p1`. -/
def pendingP1 : Message := ⟨"p1", "alice", 0, false⟩

/-- A later delivered message from alice, within the group window. -/
def aliceLater : Message := ⟨"m2", "alice", 10, true⟩

/-- The server confirmation correlated with `pendingP1` (same uid),
carrying a send time later than `aliceLater`. -/
def confirmedP1 : Message := ⟨"p1", "alice", 20, true⟩

/-- A confirmation correlated with `pendingP1` arriving while the pending
entry is still the most recent message. -/
def confirmedEarly : Message := ⟨"p1", "alice", 5, true⟩

/-! ### Lemmas about the sorting helpers -/

theorem insertSorted_of_all_le {m : Message} :
    ∀ {l : List Message}, (∀ x ∈ l, x.send_time ≤ m.send_time) →
      insertSorted m l = l ++ [m]
  | [], _ => rfl
  | x :: xs, h => by
    have hx : x.send_time ≤ m.send_time := h x (List.mem_cons_self x xs)
    have hxs := insertSorted_of_all_le (fun y hy => h y (List.mem_cons_of_mem x hy))
    simp [insertSorted, if_pos hx, hxs]

theorem foldl_insertSorted_of_pairwise :
    ∀ (l acc : List Message), List.Pairwise timeLe (acc ++ l) →
      List.foldl (fun a m => insertSorted m a) acc l = acc ++ l
  | [], acc, _ => by simp
  | m :: rest, acc, h => by
    have hall : ∀ x ∈ acc, x.send_time ≤ m.send_time := fun x hx =>
      (List.pairwise_append.mp h).2.2 x hx m (List.mem_cons_self m rest)
    have h' : List.Pairwise timeLe ((acc ++ [m]) ++ rest) := by
      simpa [List.append_assoc] using h
    calc List.foldl (fun a m => insertSorted m a) acc (m :: rest)
        = List.foldl (fun a m => insertSorted m a) (acc ++ [m]) rest := by
          simp [insertSorted_of_all_le hall]
      _ = (acc ++ [m]) ++ rest := foldl_insertSorted_of_pairwise rest (acc ++ [m]) h'
      _ = acc ++ m :: rest := by simp

theorem sortByTime_of_pairwise {l : List Message}
    (h : List.Pairwise timeLe l) : sortByTime l = l := by
  simpa [sortByTime] using foldl_insertSorted_of_pairwise l [] (by simpa using h)

theorem insertSorted_perm (m : Message) :
    ∀ (l : List Message), List.Perm (insertSorted m l) (m :: l)
  | [] => List.Perm.refl _
  | x :: xs => by
    by_cases hx : x.send_time ≤ m.send_time
    · simp only [insertSorted, if_pos hx]
      exact ((insertSorted_perm m xs).cons x).trans (List.Perm.swap m x xs)
    · simp [insertSorted, if_neg hx]

theorem pairwise_insertSorted {m : Message} :
    ∀ {l : List Message}, List.Pairwise timeLe l →
      List.Pairwise timeLe (insertSorted m l)
  | [], _ => by simp [insertSorted, List.pairwise_singleton]
  | x :: xs, h => by
    rcases List.pairwise_cons.mp h with ⟨hx, hxs⟩
    by_cases hle : x.send_time ≤ m.send_time
    · simp only [insertSorted, if_pos hle]
      refine List.pairwise_cons.mpr ⟨?_, pairwise_insertSorted hxs⟩
      intro y hy
      rcases List.mem_cons.mp ((insertSorted_perm m xs).mem_iff.mp hy) with rfl | hyx
      · exact hle
      · exact hx y hyx
    · simp only [insertSorted, if_neg hle]
      have hm : m.send_time ≤ x.send_time := le_of_not_le hle
      refine List.pairwise_cons.mpr ⟨?_, h⟩
      intro y hy
      rcases List.mem_cons.mp hy with rfl | hyx
      · exact hm
      · exact le_trans hm (hx y hyx)

theorem pairwise_sortByTime (l : List Message) :
    List.Pairwise timeLe (sortByTime l) := by
  suffices h : ∀ (l acc : List Message), List.Pairwise timeLe acc →
      List.Pairwise timeLe (List.foldl (fun a m => insertSorted m a) acc l) from
    h l [] List.Pairwise.nil
  intro l
  induction l with
  | nil => intro acc h; simpa using h
  | cons m rest ih => intro acc h; exact ih _ (pairwise_insertSorted h)

theorem foldl_insertSorted_perm :
    ∀ (l acc : List Message),
      List.Perm (List.foldl (fun a m => insertSorted m a) acc l) (acc ++ l)
  | [], acc => by simp
  | m :: rest, acc => by
    have h1 : List.Perm (List.foldl (fun a m => insertSorted m a) acc (m :: rest))
        (insertSorted m acc ++ rest) := foldl_insertSorted_perm rest _
    have h2 : List.Perm (insertSorted m acc ++ rest) ((m :: acc) ++ rest) :=
      (insertSorted_perm m acc).append_right rest
    have h3 : List.Perm ((m :: acc) ++ rest) (acc ++ m :: rest) := by
      simpa using List.perm_middle.symm
    exact (h1.trans h2).trans h3

theorem sortByTime_perm (l : List Message) : List.Perm (sortByTime l) l := by
  simpa [sortByTime] using foldl_insertSorted_perm l []

theorem MessageBox.add_message_pairwise (box : List Message) (m : Message) :
    List.Pairwise timeLe (MessageBox.add_message box m) :=
  pairwise_sortByTime _

theorem MessageBox.add_message_perm (box : List Message) (m : Message) :
    List.Perm (MessageBox.add_message box m) (m :: box) :=
  (sortByTime_perm _).trans (List.perm_append_singleton m box)

theorem MessageBox.add_message_of_pairwise {box : List Message} {m : Message}
    (hs : List.Pairwise timeLe (box ++ [m])) :
    MessageBox.add_message box m = box ++ [m] :=
  sortByTime_of_pairwise hs

/-! ### Lemmas about `modifyIdx`, `removeFirst` and `countMsg` -/

theorem modifyIdx_length {α : Type} : ∀ (l : List α) (i : Nat) (f : α → α),
    (modifyIdx l i f).length = l.length
  | [], _, _ => rfl
  | _ :: _, 0, _ => rfl
  | _ :: xs, n + 1, f => by simp [modifyIdx, modifyIdx_length xs n f]

theorem modifyIdx_get?_self {α : Type} : ∀ (l : List α) (i : Nat) (f : α → α),
    (modifyIdx l i f).get? i = (l.get? i).map f
  | [], i, _ => by cases i <;> simp [modifyIdx]
  | x :: xs, 0, f => by simp [modifyIdx]
  | x :: xs, n + 1, f => by simpa [modifyIdx] using modifyIdx_get?_self xs n f

theorem modifyIdx_get?_ne {α : Type} :
    ∀ (l : List α) (i j : Nat) (f : α → α), j ≠ i →
      (modifyIdx l i f).get? j = l.get? j
  | [], _, _, _, _ => by simp [modifyIdx]
  | x :: xs, 0, 0, f, h => absurd rfl h
  | x :: xs, 0, j + 1, f, _ => by simp [modifyIdx]
  | x :: xs, i + 1, 0, f, _ => by simp [modifyIdx]
  | x :: xs, i + 1, j + 1, f, h => by
    simpa [modifyIdx] using
      modifyIdx_get?_ne xs i j f (fun hji => h (by simp [hji]))

theorem removeFirst_append_of_not_mem [DecidableEq α] {p : α} :
    ∀ {g : List α}, p ∉ g → removeFirst (g ++ [p]) p = g
  | [], _ => by simp [removeFirst]
  | x :: xs, h => by
    have hx : ¬(x = p) := fun hxp => h (hxp ▸ List.mem_cons_self x xs)
    have hxs := removeFirst_append_of_not_mem
      (fun hp => h (List.mem_cons_of_mem x hp))
    simp [removeFirst, if_neg hx, hxs]

theorem not_mem_removeFirst [DecidableEq α] {w : α} :
    ∀ {l : List α}, l.Nodup → w ∉ removeFirst l w
  | [], _ => by simp [removeFirst]
  | x :: xs, h => by
    rcases List.nodup_cons.mp h with ⟨hx, hxs⟩
    by_cases hxw : x = w
    · subst hxw; simpa [removeFirst] using hx
    · simp only [removeFirst, if_neg hxw]
      intro hmem
      rcases List.mem_cons.mp hmem with h1 | h2
      · exact hxw h1.symm
      · exact not_mem_removeFirst hxs h2

theorem countMsg_append (m : Message) : ∀ (l₁ l₂ : List Message),
    countMsg m (l₁ ++ l₂) = countMsg m l₁ + countMsg m l₂
  | [], _ => by simp [countMsg]
  | x :: xs, l₂ => by
    simp [countMsg, countMsg_append m xs l₂, Nat.add_assoc]

theorem countMsg_eq_of_perm {m : Message} {l₁ l₂ : List Message}
    (h : List.Perm l₁ l₂) : countMsg m l₁ = countMsg m l₂ := by
  induction h with
  | nil => rfl
  | cons x _ ih => simp [countMsg, ih]
  | swap x y l => simp [countMsg, Nat.add_left_comm]
  | trans _ _ ih₁ ih₂ => exact ih₁.trans ih₂

/-! ### Claim theorems -/

/-- Claim C2 (code bug): the claim says that a fresh message whose author
differs from the most recent group's last author (or whose time delta is
at or above the window) gets a new group appended to the channel's group
sequence. In the code, the `else` branch that builds the new `MessageBox`
is attached to `if prev is not None`, so on the failing input — alice's
message followed by bob's — bob's message is processed (it becomes
`previous_message`) but is added to no group at all: the conversation box
still holds the single group `[[aliceMsg]]` instead of the claimed
`[[aliceMsg], [bobMsg]]`. -/
theorem C2_code_drops_nongrouping :
    (ChatroomWindow.add_all ChatroomWindow.initial [aliceMsg, bobMsg]).conv_box
      = [[aliceMsg]] ∧
    (ChatroomWindow.add_all ChatroomWindow.initial [aliceMsg, bobMsg]).previous_message
      = some bobMsg :=
  ⟨rfl, rfl⟩

/-- Claim C9 (code bug): the claim says the documented CLI invocation
constructs the host, forwards the module-specific arguments, enters the
run loop and exits 0 on graceful exit. `parse_arguments` does split the
arguments as documented, but `main` then evaluates
`Pagoda(remaining, args.app, args.launch)` — three positional arguments —
while `Pagoda.__init__` accepts at most two after `self`, so Python
raises `TypeError` before the run loop on every invocation. -/
theorem C9_startup_type_error :
    main ["pagoda", "-a", "teahaz", "--no-restore"] = Except.error "TypeError" ∧
    parse_arguments ["pagoda", "-a", "teahaz", "--no-restore"]
      = (["-a", "teahaz"], ["--no-restore"]) :=
  ⟨rfl, rfl⟩

/-- Claim C10: submitting the chat input field with the empty string is a
no-op — nothing is dispatched to the transport and the field keeps its
value; for every non-empty value the text is dispatched (on a background
thread, modelled as the first component) and the field is cleared. -/
theorem C10_send_message (v : String) :
    (v = "" → ChatroomWindow.send_message v = (none, v)) ∧
    (v ≠ "" → ChatroomWindow.send_message v = (some v, "")) := by
  refine ⟨fun h => ?_, fun h => ?_⟩
  · simp [ChatroomWindow.send_message, h]
  · simp [ChatroomWindow.send_message, h]

/-- Witness for C10 at the inputs `""` and `"hello"`. -/
theorem C10_send_message_witness :
    ChatroomWindow.send_message "" = (none, "") ∧
    ChatroomWindow.send_message "hello" = (some "hello", "") :=
  ⟨(C10_send_message "").1 rfl, (C10_send_message "hello").2 (by decide)⟩

/-- Claim C6: closing a window that is not in the module's
`active_windows` raises the ownership error and leaves the state
untouched; closing an owned window first removes it from `active_windows`
(so by teardown time the window is no longer owned) and only then issues
the display-layer teardown. -/
theorem C6_close_ownership (st : AppState) (w : Nat)
    (hnd : st.active_windows.Nodup) :
    (w ∉ st.active_windows →
      PagodaApplication.close st w = (st, some notOwnedMsg)) ∧
    (w ∈ st.active_windows →
      PagodaApplication.close st w = ((st.unregister w).teardown w, none) ∧
      w ∉ (st.unregister w).active_windows ∧
      ((st.unregister w).teardown w).active_windows
        = removeFirst st.active_windows w ∧
      ((st.unregister w).teardown w).torn_down = st.torn_down ++ [w]) := by
  refine ⟨fun h => ?_, fun h => ⟨?_, ?_, rfl, rfl⟩⟩
  · simp [PagodaApplication.close, h]
  · simp [PagodaApplication.close, h]
  · exact not_mem_removeFirst hnd

/-- Witness for C6: window 3 is not owned and the close fails with the
state unchanged; window 2 is owned and the close unregisters it before
tearing it down. -/
theorem C6_close_ownership_witness :
    PagodaApplication.close ⟨[1, 2], []⟩ 3 = (⟨[1, 2], []⟩, some notOwnedMsg) ∧
    PagodaApplication.close ⟨[1, 2], []⟩ 2
      = ((AppState.unregister ⟨[1, 2], []⟩ 2).teardown 2, none) :=
  ⟨(C6_close_ownership ⟨[1, 2], []⟩ 3 (by decide)).1 (by decide),
   ((C6_close_ownership ⟨[1, 2], []⟩ 2 (by decide)).2 (by decide)).1⟩

/-- Claim C7 counterexample: window 5 remains in `active_windows` but is
no longer registered with the window manager; `stop` issues no teardown
for it, so the claim that `stop()` closes every window remaining in
`active_windows` fails at this input. -/
theorem C7_counterexample :
    (PagodaApplication.stop ⟨[5], []⟩ []).torn_down = [] ∧
    (PagodaApplication.stop ⟨[5], []⟩ []).active_windows = [5] :=
  ⟨rfl, rfl⟩

/-- Claim C7 (amended): `stop()` tears down exactly those windows of
`active_windows` that are still registered with the window manager, in
order, leaving `active_windows` itself untouched; the Teahaz subclass
override persists session state and stops its Teacup backend before
invoking the base close-all. -/
theorem C7_amended_stop (st : AppState) (manager aw mgr : List Nat) :
    (PagodaApplication.stop st manager).torn_down
      = st.torn_down ++ st.active_windows.filter (fun w => w ∈ manager) ∧
    (PagodaApplication.stop st manager).active_windows = st.active_windows ∧
    (∀ w ∈ st.active_windows, w ∈ manager →
      w ∈ (PagodaApplication.stop st manager).torn_down) ∧
    TeahazApplication.stop aw mgr true false
      = TeahazOp.persistSession :: TeahazOp.cupStop ::
          (aw.filter (fun w => w ∈ mgr)).map TeahazOp.teardownWin := by
  refine ⟨rfl, rfl, fun w hw hmem => ?_, ?_⟩
  · exact List.mem_append_right _ (List.mem_filter.mpr ⟨hw, by simpa using hmem⟩)
  · simp [TeahazApplication.stop]

/-- Witness for C7 (amended): active windows 1 and 2 with only 2 still in
the manager — 2 is torn down; the Teahaz shutdown sequence persists and
stops the backend before the teardown of window 3. -/
theorem C7_amended_stop_witness :
    (PagodaApplication.stop ⟨[1, 2], []⟩ [2]).torn_down = [2] ∧
    2 ∈ (PagodaApplication.stop ⟨[1, 2], []⟩ [2]).torn_down ∧
    TeahazApplication.stop [3] [3] true false
      = [TeahazOp.persistSession, TeahazOp.cupStop, TeahazOp.teardownWin 3] := by
  have h := C7_amended_stop ⟨[1, 2], []⟩ [2] [3] [3]
  exact ⟨by decide, h.2.2.1 2 (by decide) (by decide), h.2.2.2⟩

/-- Claim C8 counterexample: a `ConnectionError`, then a response error,
then another `ConnectionError`. The second `ConnectionError` does not
arrive in immediate succession after the first (a response error was
reported and routed in between), yet it is silently dropped — so the
claim's only-sanctioned-suppression clause fails at this input. -/
theorem C8_counterexample :
    (TeahazApplication.handle_all ErrState.initial
      [ErrorEvent.exception "ConnectionError", ErrorEvent.response "bad request",
       ErrorEvent.exception "ConnectionError"]).displayed
      = [ErrorEvent.exception "ConnectionError",
         ErrorEvent.response "bad request"] :=
  rfl

/-- Claim C1 counterexample: pending `p1` (alice, t=0) sits at position 0
of group 0; a second alice message (t=10) joins the group; then the
confirmation correlated with `p1` (t=20) arrives. The code removes the
pending entry and re-inserts the confirmation through the grouping rule,
so the confirmed message ends at position 1 — not at the pending entry's
position 0 — refuting in-place replacement. -/
theorem C1_counterexample :
    (ChatroomWindow.add_all ChatroomWindow.initial [pendingP1, aliceLater]).conv_box
      = [[pendingP1, aliceLater]] ∧
    (ChatroomWindow.add_all ChatroomWindow.initial
      [pendingP1, aliceLater, confirmedP1]).conv_box
      = [[aliceLater, confirmedP1]] :=
  ⟨rfl, rfl⟩

/-- Claim C3 counterexample: re-inserting the already-CONFIRMED message
`aliceMsg` is not a no-op — the visual entry is duplicated inside its
group. -/
theorem C3_counterexample :
    (ChatroomWindow.add_all ChatroomWindow.initial [aliceMsg]).conv_box
      = [[aliceMsg]] ∧
    (ChatroomWindow.add_all ChatroomWindow.initial [aliceMsg, aliceMsg]).conv_box
      = [[aliceMsg, aliceMsg]] :=
  ⟨rfl, rfl⟩

/-- Claim C4 counterexample: the two-element message set containing
alice's and bob's messages yields the partition `[[aliceMsg]]` in one
insertion order and `[[bobMsg]]` in the other, so the final group
partition depends on insertion order. -/
theorem C4_counterexample :
    (ChatroomWindow.add_all ChatroomWindow.initial [aliceMsg, bobMsg]).conv_box
      = [[aliceMsg]] ∧
    (ChatroomWindow.add_all ChatroomWindow.initial [bobMsg, aliceMsg]).conv_box
      = [[bobMsg]] :=
  ⟨rfl, rfl⟩

theorem throttleSpec_congr :
    ∀ (es : List ErrorEvent) {a b : Option String},
      prevTypeName a = prevTypeName b → throttleSpec a es = throttleSpec b es
  | [], _, _, _ => rfl
  | ErrorEvent.response t :: rest, a, b, h => by
    simp [throttleSpec, throttleSpec_congr rest h]
  | ErrorEvent.exception n :: rest, a, b, h => by
    simp only [throttleSpec, h]

theorem handle_all_displayed :
    ∀ (es : List ErrorEvent) (st : ErrState),
      (TeahazApplication.handle_all st es).displayed
        = st.displayed ++ throttleSpec st.previousException es
  | [], st => by simp [TeahazApplication.handle_all, throttleSpec]
  | ErrorEvent.response t :: rest, st => by
    have ih := handle_all_displayed rest
      { st with displayed := st.displayed ++ [ErrorEvent.response t] }
    simpa [TeahazApplication.handle_all, TeahazApplication.handle_error,
      throttleSpec] using ih
  | ErrorEvent.exception n :: rest, st => by
    by_cases hn : prevTypeName st.previousException = n
    · have ih := handle_all_displayed rest st
      have hc : throttleSpec st.previousException rest
          = throttleSpec (some n) rest :=
        throttleSpec_congr rest (by simpa [prevTypeName] using hn)
      have hstep : TeahazApplication.handle_all st (ErrorEvent.exception n :: rest)
          = TeahazApplication.handle_all st rest := by
        simp [TeahazApplication.handle_all, TeahazApplication.handle_error, hn]
      have hrhs : throttleSpec st.previousException (ErrorEvent.exception n :: rest)
          = throttleSpec (some n) rest := by
        simp [throttleSpec, hn]
      rw [hstep, ih, hc, hrhs]
    · have ih := handle_all_displayed rest
        ⟨some n, st.displayed ++ [ErrorEvent.exception n]⟩
      simpa [TeahazApplication.handle_all, TeahazApplication.handle_error,
        throttleSpec, hn] using ih

theorem throttleSpec_sublist :
    ∀ (prev : Option String) (es : List ErrorEvent),
      (throttleSpec prev es).Sublist es
  | _, [] => List.nil_sublist []
  | prev, ErrorEvent.response t :: rest =>
    List.Sublist.cons₂ _ (throttleSpec_sublist prev rest)
  | prev, ErrorEvent.exception n :: rest => by
    by_cases hn : prevTypeName prev = n
    · simpa [throttleSpec, hn] using
        (throttleSpec_sublist (some n) rest).cons (ErrorEvent.exception n)
    · simpa [throttleSpec, hn] using
        (throttleSpec_sublist (some n) rest).cons₂ (ErrorEvent.exception n)

theorem throttleSpec_responses :
    ∀ (prev : Option String) (es : List ErrorEvent),
      (throttleSpec prev es).filter ErrorEvent.isResponse
        = es.filter ErrorEvent.isResponse
  | _, [] => rfl
  | prev, ErrorEvent.response t :: rest => by
    simp [throttleSpec, ErrorEvent.isResponse, throttleSpec_responses prev rest]
  | prev, ErrorEvent.exception n :: rest => by
    by_cases hn : prevTypeName prev = n <;>
      simp [throttleSpec, hn, ErrorEvent.isResponse,
        throttleSpec_responses (some n) rest]

/-- Claim C8 (amended): every reported error is routed to the single
shared error surface except that an exception is suppressed exactly when
its cause type name equals that of the nearest preceding exception event —
regardless of intervening response errors, and for every repeat rather
than only an immediate second; response errors are never suppressed, and
the routed sequence is an order-preserving subsequence of the reported
one. -/
theorem C8_amended_throttle (es : List ErrorEvent) :
    (TeahazApplication.handle_all ErrState.initial es).displayed
      = throttleSpec none es ∧
    ((TeahazApplication.handle_all ErrState.initial es).displayed).Sublist es ∧
    ((TeahazApplication.handle_all ErrState.initial es).displayed).filter
        ErrorEvent.isResponse
      = es.filter ErrorEvent.isResponse := by
  have h : (TeahazApplication.handle_all ErrState.initial es).displayed
      = throttleSpec none es := by
    simpa [ErrState.initial] using handle_all_displayed es ErrState.initial
  refine ⟨h, ?_, ?_⟩
  · rw [h]; exact throttleSpec_sublist none es
  · rw [h]; exact throttleSpec_responses none es

theorem add_message_conv_box_untracked (st : ChatroomWindow) (m : Message)
    (huid : lookupSent st.sent_messages m.uid = none) :
    (st.previous_message = none ∧
      (ChatroomWindow.add_message st m).conv_box = st.conv_box ++ [[m]]) ∨
    (∃ bi, st.previous_box = some bi ∧
      (ChatroomWindow.add_message st m).conv_box
        = modifyIdx st.conv_box bi (fun b => MessageBox.add_message b m)) ∨
    (ChatroomWindow.add_message st m).conv_box = st.conv_box := by
  cases hpm : st.previous_message with
  | none =>
    left
    refine ⟨rfl, ?_⟩
    cases hd : m.is_delivered <;>
      simp [ChatroomWindow.add_message, huid, hpm, hd]
  | some prev =>
    by_cases hcond : m.username = prev.username ∧
        m.send_time - prev.send_time < 600
    · cases hpb : st.previous_box with
      | none =>
        right; right
        cases hd : m.is_delivered <;>
          simp [ChatroomWindow.add_message, huid, hpm, hpb, hcond, hd]
      | some bi =>
        right; left
        refine ⟨bi, rfl, ?_⟩
        cases hd : m.is_delivered <;>
          simp [ChatroomWindow.add_message, huid, hpm, hpb, hcond, hd]
    · right; right
      cases hpb : st.previous_box with
      | none =>
        cases hd : m.is_delivered <;>
          simp [ChatroomWindow.add_message, huid, hpm, hpb, hcond, hd]
      | some bi =>
        cases hd : m.is_delivered <;>
          simp [ChatroomWindow.add_message, huid, hpm, hpb, hcond, hd]

/-- Claim C5: every group-level insert (`MessageBox.add_message`) yields a
message list sorted by send time in non-decreasing order — also for a
message arriving out of sent-time order — containing exactly the old
messages plus the new one; and at the window level, the insertion of an
untracked message leaves every group other than the one referenced by
`previous_box` untouched: only the affected group is resorted, never the
whole channel. -/
theorem C5_sorted_and_local (st : ChatroomWindow) (m : Message)
    (huid : lookupSent st.sent_messages m.uid = none) :
    (∀ (box : List Message) (x : Message),
      List.Pairwise timeLe (MessageBox.add_message box x) ∧
      List.Perm (MessageBox.add_message box x) (x :: box)) ∧
    (∀ j, j < st.conv_box.length → st.previous_box ≠ some j →
      (ChatroomWindow.add_message st m).conv_box.get? j
        = st.conv_box.get? j) := by
  refine ⟨fun box x => ⟨MessageBox.add_message_pairwise box x,
    MessageBox.add_message_perm box x⟩, fun j hj hpb => ?_⟩
  rcases add_message_conv_box_untracked st m huid with ⟨_, hc⟩ | ⟨bi, hbi, hc⟩ | hc
  · rw [hc]; exact List.get?_append hj
  · rw [hc]
    exact modifyIdx_get?_ne _ bi j _
      (fun hji => hpb (hbi.trans (congrArg some hji.symm)))
  · rw [hc]

/-- Witness for C5: alice's later message is inserted while bob's group
(index 1) is the previous box — the untouched group at index 0 keeps its
contents; the box-level insert of bob's message next to alice's produces
a sorted box. -/
theorem C5_sorted_and_local_witness :
    List.Pairwise timeLe (MessageBox.add_message [aliceMsg] bobMsg) ∧
    (ChatroomWindow.add_message
        ⟨[[aliceMsg], [bobMsg]], [], some 1, some bobMsg⟩
        aliceLater).conv_box.get? 0
      = some [aliceMsg] := by
  have h := C5_sorted_and_local
    ⟨[[aliceMsg], [bobMsg]], [], some 1, some bobMsg⟩ aliceLater rfl
  exact ⟨(h.1 [aliceMsg] bobMsg).1, (h.2 0 (by decide) (by decide)).trans rfl⟩

/-- Claim C3 (amended): re-delivery of an already-CONFIRMED message is
not deduplicated. Only undelivered messages are tracked for
reconciliation, so the re-delivered message is handled as a fresh insert;
re-inserting the most recently inserted confirmed message appends a
duplicate of it to its group, while the group count stays unchanged. -/
theorem C3_amended_duplicate (st : ChatroomWindow) (m : Message)
    (i : Nat) (b : List Message)
    (huid : lookupSent st.sent_messages m.uid = none)
    (hprev : st.previous_message = some m)
    (hpbox : st.previous_box = some i)
    (hdeliv : m.is_delivered = true)
    (hbox : st.conv_box.get? i = some b) :
    (ChatroomWindow.add_message st m).conv_box.length = st.conv_box.length ∧
    (ChatroomWindow.add_message st m).conv_box.get? i
      = some (MessageBox.add_message b m) ∧
    countMsg m (MessageBox.add_message b m) = countMsg m b + 1 := by
  have h600 : m.send_time - m.send_time < 600 := by
    rw [sub_self]; decide
  have hconv : (ChatroomWindow.add_message st m).conv_box
      = modifyIdx st.conv_box i (fun bb => MessageBox.add_message bb m) := by
    simp [ChatroomWindow.add_message, huid, hprev, hpbox, hdeliv, h600]
  refine ⟨by rw [hconv]; exact modifyIdx_length _ _ _, ?_, ?_⟩
  · rw [hconv, modifyIdx_get?_self, hbox]; rfl
  · have hper : countMsg m (MessageBox.add_message b m)
        = countMsg m (b ++ [m]) :=
      countMsg_eq_of_perm ((MessageBox.add_message_perm b m).trans
        (List.perm_append_singleton m b).symm)
    rw [hper, countMsg_append]
    simp [countMsg]

/-- Witness for C3 (amended): re-inserting `aliceMsg` into the state it
just produced duplicates it inside group 0. -/
theorem C3_amended_duplicate_witness :
    (ChatroomWindow.add_message ⟨[[aliceMsg]], [], some 0, some aliceMsg⟩
        aliceMsg).conv_box.get? 0
      = some (MessageBox.add_message [aliceMsg] aliceMsg) ∧
    countMsg aliceMsg (MessageBox.add_message [aliceMsg] aliceMsg)
      = countMsg aliceMsg [aliceMsg] + 1 := by
  have h := C3_amended_duplicate ⟨[[aliceMsg]], [], some 0, some aliceMsg⟩
    aliceMsg 0 [aliceMsg] rfl rfl rfl rfl rfl
  exact ⟨h.2.1, h.2.2⟩

theorem pairwise_append_last {g : List Message} {p c : Message}
    (hs : List.Pairwise timeLe (g ++ [p])) (hpc : p.send_time ≤ c.send_time) :
    List.Pairwise timeLe (g ++ [c]) := by
  rcases List.pairwise_append.mp hs with ⟨hg, _, hgp⟩
  refine List.pairwise_append.mpr ⟨hg, List.pairwise_singleton _ _, ?_⟩
  intro a ha b hb
  rcases List.mem_singleton.mp hb with rfl
  exact le_trans (hgp a ha p (List.mem_singleton_self p)) hpc

/-- Claim C1 (amended): the code does not replace a confirmed pending
entry strictly in place — it removes the tracked pending message from its
recorded box and re-inserts the confirmation through the grouping rule.
In-place replacement does hold in the reconciliation scenario the spec
describes: when the pending message is the most recent message (the
`previous_message`), sits last in its sorted group, and the confirmation
shares its author, arrives within the 600-second window and not before
the pending send time, then the confirmed entry occupies the same group
at the same (last) position, every other group and every other message of
the group is untouched, nothing is duplicated, and the pending entry is
dropped from the correlation table. -/
theorem C1_amended_inplace (bs : List (List Message)) (g : List Message)
    (i : Nat) (sm : SentTable) (p c : Message)
    (hbox : bs.get? i = some (g ++ [p]))
    (hsorted : List.Pairwise timeLe (g ++ [p]))
    (hnotin : p ∉ g)
    (hlook : lookupSent sm c.uid = some (p, i))
    (huser : c.username = p.username)
    (hafter : p.send_time ≤ c.send_time)
    (hwin : c.send_time - p.send_time < 600)
    (hdeliv : c.is_delivered = true) :
    (ChatroomWindow.add_message ⟨bs, sm, some i, some p⟩ c).conv_box.get? i
      = some (g ++ [c]) ∧
    (∀ j, j ≠ i →
      (ChatroomWindow.add_message ⟨bs, sm, some i, some p⟩ c).conv_box.get? j
        = bs.get? j) ∧
    (ChatroomWindow.add_message ⟨bs, sm, some i, some p⟩ c).conv_box.length
      = bs.length ∧
    (ChatroomWindow.add_message ⟨bs, sm, some i, some p⟩ c).sent_messages
      = eraseSent sm c.uid ∧
    (ChatroomWindow.add_message ⟨bs, sm, some i, some p⟩ c).previous_box
      = some i ∧
    (ChatroomWindow.add_message ⟨bs, sm, some i, some p⟩ c).previous_message
      = some c := by
  have hrem : MessageBox.remove_msg (g ++ [p]) p = g :=
    removeFirst_append_of_not_mem hnotin
  have hadd : MessageBox.add_message g c = g ++ [c] :=
    MessageBox.add_message_of_pairwise (pairwise_append_last hsorted hafter)
  have hconv : (ChatroomWindow.add_message ⟨bs, sm, some i, some p⟩ c).conv_box
      = modifyIdx (modifyIdx bs i (fun b => MessageBox.remove_msg b p)) i
          (fun b => MessageBox.add_message b c) := by
    simp [ChatroomWindow.add_message, hlook, huser, hwin, hdeliv]
  refine ⟨?_, fun j hj => ?_, ?_, ?_, ?_, ?_⟩
  · rw [hconv, modifyIdx_get?_self, modifyIdx_get?_self, hbox]
    simp [hrem, hadd]
  · rw [hconv, modifyIdx_get?_ne _ i j _ hj, modifyIdx_get?_ne _ i j _ hj]
  · rw [hconv, modifyIdx_length, modifyIdx_length]
  · simp [ChatroomWindow.add_message, hlook, huser, hwin, hdeliv]
  · simp [ChatroomWindow.add_message, hlook, huser, hwin, hdeliv]
  · simp [ChatroomWindow.add_message, hlook, huser, hwin, hdeliv]

/-- Witness for C1 (amended): the spec scenario — the pending send is the
only message of the only group; its confirmation replaces it there, at
the same position, and the correlation entry disappears. -/
theorem C1_amended_inplace_witness :
    (ChatroomWindow.add_message
        ⟨[[pendingP1]], [("p1", pendingP1, 0)], some 0, some pendingP1⟩
        confirmedEarly).conv_box.get? 0
      = some ([] ++ [confirmedEarly]) ∧
    (ChatroomWindow.add_message
        ⟨[[pendingP1]], [("p1", pendingP1, 0)], some 0, some pendingP1⟩
        confirmedEarly).sent_messages
      = eraseSent [("p1", pendingP1, 0)] "p1" := by
  have h := C1_amended_inplace [[pendingP1]] [] 0 [("p1", pendingP1, 0)]
    pendingP1 confirmedEarly rfl (by simp) (by simp) rfl rfl
    (by decide) (by decide) rfl
  exact ⟨h.1, h.2.2.2.1⟩

theorem add_all_single_group (l : List Message) (u : String)
    (hauth : ∀ m ∈ l, m.username = u)
    (hdel : ∀ m ∈ l, m.is_delivered = true)
    (hwin : ∀ a ∈ l, ∀ b ∈ l, a.send_time - b.send_time < 600) :
    ∀ (todo : List Message), (∀ m ∈ todo, m ∈ l) →
      ∀ (g : List Message) (p : Message), p ∈ l →
        ∃ g' q, ChatroomWindow.add_all ⟨[g], [], some 0, some p⟩ todo
            = ⟨[g'], [], some 0, some q⟩ ∧ q ∈ l ∧ List.Perm g' (g ++ todo) := by
  intro todo
  induction todo with
  | nil =>
    intro _ g p hp
    exact ⟨g, p, rfl, hp, by simp⟩
  | cons m rest ih =>
    intro hsub g p hp
    have hm : m ∈ l := hsub m (List.mem_cons_self m rest)
    have hstep : ChatroomWindow.add_message ⟨[g], [], some 0, some p⟩ m
        = ⟨[MessageBox.add_message g m], [], some 0, some m⟩ := by
      simp [ChatroomWindow.add_message, lookupSent, hauth m hm, hauth p hp,
        hwin m hm p hp, hdel m hm, modifyIdx]
    have hfold : ChatroomWindow.add_all ⟨[g], [], some 0, some p⟩ (m :: rest)
        = ChatroomWindow.add_all ⟨[MessageBox.add_message g m], [], some 0, some m⟩
            rest := by
      simp [ChatroomWindow.add_all, hstep]
    rcases ih (fun x hx => hsub x (List.mem_cons_of_mem m hx))
        (MessageBox.add_message g m) m hm with ⟨g', q, heq, hq, hperm⟩
    refine ⟨g', q, hfold.trans heq, hq, ?_⟩
    have h2 : List.Perm (MessageBox.add_message g m ++ rest) ((m :: g) ++ rest) :=
      (MessageBox.add_message_perm g m).append_right rest
    have h3 : List.Perm ((m :: g) ++ rest) (g ++ m :: rest) := by
      simpa using List.perm_middle.symm
    exact (hperm.trans h2).trans h3

theorem add_all_from_initial (l : List Message) (u : String)
    (hne : l ≠ [])
    (hauth : ∀ m ∈ l, m.username = u)
    (hdel : ∀ m ∈ l, m.is_delivered = true)
    (hwin : ∀ a ∈ l, ∀ b ∈ l, a.send_time - b.send_time < 600) :
    ∃ g, (ChatroomWindow.add_all ChatroomWindow.initial l).conv_box = [g] ∧
      List.Perm g l := by
  cases l with
  | nil => exact absurd rfl hne
  | cons m0 rest =>
    have hm0 : m0 ∈ m0 :: rest := List.mem_cons_self m0 rest
    have hstep : ChatroomWindow.add_message ChatroomWindow.initial m0
        = ⟨[[m0]], [], some 0, some m0⟩ := by
      simp [ChatroomWindow.add_message, ChatroomWindow.initial, lookupSent,
        hdel m0 hm0]
    have hfold : ChatroomWindow.add_all ChatroomWindow.initial (m0 :: rest)
        = ChatroomWindow.add_all ⟨[[m0]], [], some 0, some m0⟩ rest := by
      simp [ChatroomWindow.add_all, hstep]
    rcases add_all_single_group (m0 :: rest) u hauth hdel hwin rest
        (fun x hx => List.mem_cons_of_mem m0 hx) [m0] m0 hm0 with
      ⟨g, q, heq, _, hgperm⟩
    refine ⟨g, ?_, ?_⟩
    · rw [hfold, heq]
    · simpa using hgperm

/-- Claim C4 (amended): grouping is not order-independent in general (two
authors, or gaps at or above the window, give order-dependent
partitions); it is order-independent on the window's good case: for any
two insertion orders of a finite set of delivered messages that all share
one author and whose pairwise send-time differences all stay below the
600-second window, both orders settle into a single group, and the two
groups hold the same messages up to permutation. -/
theorem C4_amended_order_independence (u : String) (l1 l2 : List Message)
    (hperm : List.Perm l1 l2)
    (hne : l1 ≠ [])
    (hauth : ∀ m ∈ l1, m.username = u)
    (hdel : ∀ m ∈ l1, m.is_delivered = true)
    (hwin : ∀ a ∈ l1, ∀ b ∈ l1, a.send_time - b.send_time < 600) :
    ∃ g1 g2,
      (ChatroomWindow.add_all ChatroomWindow.initial l1).conv_box = [g1] ∧
      (ChatroomWindow.add_all ChatroomWindow.initial l2).conv_box = [g2] ∧
      List.Perm g1 l1 ∧ List.Perm g2 l2 ∧ List.Perm g1 g2 := by
  have hne2 : l2 ≠ [] := by
    intro h2
    exact hne (List.Perm.eq_nil (h2 ▸ hperm))
  rcases add_all_from_initial l1 u hne hauth hdel hwin with ⟨g1, hg1, hp1⟩
  rcases add_all_from_initial l2 u hne2
      (fun m hm => hauth m (hperm.mem_iff.mpr hm))
      (fun m hm => hdel m (hperm.mem_iff.mpr hm))
      (fun a ha b hb => hwin a (hperm.mem_iff.mpr ha) b (hperm.mem_iff.mpr hb))
    with ⟨g2, hg2, hp2⟩
  exact ⟨g1, g2, hg1, hg2, hp1, hp2, (hp1.trans hperm).trans hp2.symm⟩

/-- Witness for C4 (amended): the two insertion orders of alice's two
in-window messages both settle into one group with the same contents. -/
theorem C4_amended_order_independence_witness :
    ∃ g1 g2,
      (ChatroomWindow.add_all ChatroomWindow.initial
        [aliceMsg, aliceLater]).conv_box = [g1] ∧
      (ChatroomWindow.add_all ChatroomWindow.initial
        [aliceLater, aliceMsg]).conv_box = [g2] ∧
      List.Perm g1 [aliceMsg, aliceLater] ∧
      List.Perm g2 [aliceLater, aliceMsg] ∧ List.Perm g1 g2 :=
  C4_amended_order_independence "alice" [aliceMsg, aliceLater]
    [aliceLater, aliceMsg] (List.Perm.swap aliceLater aliceMsg [])
    (by decide) (by decide) (by decide) (by decide)

end Pagoda
